import Mathlib

/-!
Shallow embedding of the fase1_vendas FULL v1 runner
(run_fase1_vendas_full_v1.py): the portfolio ledger, the rule engine and
the daily simulation loop, together with proofs about the behaviour the
specification describes.

Modelling conventions:
- money and prices are exact rationals;
- trading dates are natural numbers (day ordinals, weekday d = d % 7);
- Python dicts become association lists preserving insertion order;
- a metric value is null (missing), NaN, or a number.
-/

namespace PortfolioZero

/-- Value of one metric as seen by the rule engine: absent key or None,
a float NaN, or an ordinary numeric value. -/
inductive MetricValue where
  | null : MetricValue
  | nan : MetricValue
  | num : ℚ → MetricValue
deriving DecidableEq, Repr

/-- A metrics dictionary: lookup by metric name, missing keys read as null. -/
def Metrics : Type := String → MetricValue

/-- One condition record of a rule block, with fields metric, op, value. -/
structure Cond where
  metric : String
  op : String
  value : ℚ
deriving DecidableEq, Repr

/-- A rule condition block: an optional any_of list, an optional all_of list
and the action attached to the block. -/
structure Block where
  any_of : Option (List Cond)
  all_of : Option (List Cond)
  action : Option String
deriving DecidableEq, Repr

/-- The ruleset document: the ordered priority list, one optional condition
block per recognized rule identifier, and the two reduce fractions from
the actions section (none when the corresponding key is absent). -/
structure Ruleset where
  priority_order : List String
  hard_stop : Option Block
  soft_stop : Option Block
  portfolio_hard_stop : Option Block
  portfolio_soft_stop : Option Block
  ticker_hard_stop : Option Block
  systemic_stress_soft_stop : Option Block
  systemic_stress_hard_stop : Option Block
  idiosyncratic_hard_stop : Option Block
  reduce_fraction : Option ℚ
  portfolio_reduce_fraction : Option ℚ
deriving Repr

/-- One row of the order log, mirroring log_order in the source. -/
structure Order where
  date : ℕ
  action : String
  ticker : String
  qty : ℤ
  price : ℚ
  fee_total : ℚ
  cash_delta_date : ℕ
  settlement_date : ℕ
  reason : String
deriving DecidableEq, Repr

/-- Whole mutable state of the simulation: the ledger (cash, positions,
pending settlements, quarantine), the accumulated equity history, the
order log and the counters the runner keeps. -/
structure SimState where
  cash : ℚ
  positions : List (String × ℤ)
  pending : List (ℕ × ℚ)
  quarantine : List (String × ℤ)
  equity_history : List (ℕ × ℚ)
  orders : List Order
  n_quarantine_events : ℕ
  hold_count : ℕ
  reduce_count : ℕ
  zero_count : ℕ
deriving DecidableEq, Repr

/-- Static configuration of a run: calendar, date range, capital, fees,
settlement lag, weekly-buy settings, quarantine length, universe, the
price matrix and the precomputed per-ticker metric matrix. -/
structure SimCfg where
  trading_dates : List ℕ
  start_date : ℕ
  end_date : ℕ
  initial_capital : ℚ
  target_positions : ℤ
  fee_percent : ℚ
  fee_fixed : ℚ
  sell_settlement_days : ℕ
  weekly_enabled : Bool
  weekly_weekday : ℕ
  quarantine_sessions : ℤ
  supervised : List String
  price : ℕ → String → Option ℚ
  metrics : ℕ → String → Metrics
  ruleset : Option Ruleset

/-- Dict membership test for an association list keyed by strings. -/
def alHas (m : List (String × ℤ)) (k : String) : Bool :=
  m.any (fun p => p.1 == k)

/-- Dict lookup with default for an association list keyed by strings. -/
def alGet (m : List (String × ℤ)) (k : String) (dflt : ℤ) : ℤ :=
  match m.find? (fun p => p.1 == k) with
  | none => dflt
  | some p => p.2

/-- Dict assignment: update the entries holding the key in place, or append
a fresh entry, matching Python dict insertion-order semantics. -/
def alSet (m : List (String × ℤ)) (k : String) (v : ℤ) : List (String × ℤ) :=
  if alHas m k then m.map (fun p => if p.1 == k then (k, v) else p)
  else m ++ [(k, v)]

/-- Evaluation of a single condition record against a metrics dictionary,
following eval_conditions: a null or NaN metric value refutes the
condition, a recognized operator compares, an unrecognized operator
leaves the condition unrefuted. -/
def evalCondition (metrics : Metrics) (c : Cond) : Bool :=
  match metrics c.metric with
  | MetricValue.null => false
  | MetricValue.nan => false
  | MetricValue.num v =>
    if c.op = ">=" ∧ ¬ (v ≥ c.value) then false
    else if c.op = "<=" ∧ ¬ (v ≤ c.value) then false
    else if c.op = ">" ∧ ¬ (v > c.value) then false
    else if c.op = "<" ∧ ¬ (v < c.value) then false
    else if c.op = "==" ∧ ¬ (v = c.value) then false
    else if c.op = "!=" ∧ ¬ (v ≠ c.value) then false
    else true

/-- Conjunction over a list of conditions, as the early-return loop of
eval_conditions computes it. -/
def eval_conditions (conditions : List Cond) (metrics : Metrics) : Bool :=
  conditions.all (evalCondition metrics)

/-- Evaluation of a rule block: a missing block never triggers; an any_of
list triggers when any single condition holds; otherwise an all_of list
triggers when the whole list holds. Returns the trigger flag together
with the raw action of the block. -/
def eval_rule_block (block : Option Block) (metrics : Metrics) :
    Bool × Option String :=
  match block with
  | none => (false, none)
  | some b =>
    let triggered :=
      match b.any_of with
      | some conds => conds.any (fun c => eval_conditions [c] metrics)
      | none =>
        match b.all_of with
        | some conds => eval_conditions conds metrics
        | none => false
    (triggered, b.action)

/-- Normalization of a raw rule action, following map_action. -/
def map_action (action : Option String) : String :=
  match action with
  | none => "HOLD"
  | some a =>
    if a = "" then "HOLD"
    else if a = "ZERO" then a
    else if a = "REDUCE" then a
    else if a = "HOLD" then a
    else if a = "PORTFOLIO_REDUCE" then "REDUCE"
    else if a = "TICKER_ZERO" then "ZERO"
    else "HOLD"

/-- Priority list of an optional ruleset, empty when no ruleset is loaded. -/
def priorityOf (ruleset : Option Ruleset) : List String :=
  match ruleset with
  | none => []
  | some rs => rs.priority_order

/-- The rule-dispatch loop inside evaluate_action: walk the priority list,
look up the condition block hard-wired to each recognized rule id, and
return on the first trigger. -/
def evalActionLoop (supervised : List String) (ruleset : Option Ruleset)
    (tkr : String) (metrics pm : Metrics) : List String → String × String
  | [] => ("HOLD", "DEFAULT_HOLD")
  | rule_id :: rest =>
    let continue_ := evalActionLoop supervised ruleset tkr metrics pm rest
    let tryBlock := fun (b : Ruleset → Option Block) (sm : Metrics) =>
      let r := eval_rule_block (ruleset.bind b) sm
      if r.1 then (map_action r.2, rule_id) else continue_
    if rule_id = "EXIT_IF_NOT_IN_SUPERVISED" then
      if ¬ supervised.contains tkr then ("ZERO", rule_id) else continue_
    else if rule_id = "HARD_STOP" then tryBlock (·.hard_stop) metrics
    else if rule_id = "SOFT_STOP" then tryBlock (·.soft_stop) metrics
    else if rule_id = "PORTFOLIO_HARD_STOP" then tryBlock (·.portfolio_hard_stop) pm
    else if rule_id = "PORTFOLIO_SOFT_STOP" then tryBlock (·.portfolio_soft_stop) pm
    else if rule_id = "TICKER_HARD_STOP" then tryBlock (·.ticker_hard_stop) metrics
    else if rule_id = "SYSTEMIC_STRESS_SOFT_STOP" then tryBlock (·.systemic_stress_soft_stop) metrics
    else if rule_id = "SYSTEMIC_STRESS_HARD_STOP" then tryBlock (·.systemic_stress_hard_stop) metrics
    else if rule_id = "IDIOSYNCRATIC_HARD_STOP" then tryBlock (·.idiosyncratic_hard_stop) metrics
    else continue_

/-- evaluate_action from the source: a ticker outside the supervised
universe exits immediately; otherwise the priority loop decides, with
(HOLD, DEFAULT_HOLD) when nothing triggers. -/
def evaluate_action (supervised : List String) (ruleset : Option Ruleset)
    (tkr : String) (metrics pm : Metrics) : String × String :=
  if ¬ supervised.contains tkr then ("ZERO", "EXIT_IF_NOT_IN_SUPERVISED")
  else evalActionLoop supervised ruleset tkr metrics pm (priorityOf ruleset)

/-- The trading date a given number of sessions after the current one,
clamped to the final calendar entry when the offset runs past the end,
as in next_trading_date. -/
def next_trading_date (tds : List ℕ) (current : ℕ) (offset : ℕ) : ℕ :=
  let idx := tds.indexOf current
  let target_idx := idx + offset
  if tds.length ≤ target_idx then tds.getLastD 0
  else tds.getD target_idx 0

/-- Append one row to the order log, mirroring log_order. -/
def log_order (st : SimState) (date_value : ℕ) (action : String)
    (ticker : String) (qty : ℤ) (price fee_total : ℚ)
    (cash_delta_date settlement_date : ℕ) (reason : String) : SimState :=
  { st with orders := st.orders ++
      [{ date := date_value, action := action, ticker := ticker, qty := qty,
         price := price, fee_total := fee_total,
         cash_delta_date := cash_delta_date,
         settlement_date := settlement_date, reason := reason }] }

/-- apply_sell: a non-positive quantity is ignored; otherwise the proceeds
net of fees are scheduled for the settlement date and a SELL order is
logged. Cash is not touched. -/
def apply_sell (cfg : SimCfg) (st : SimState) (date_value : ℕ)
    (ticker : String) (qty : ℤ) (price : ℚ) (reason : String) : SimState :=
  if qty ≤ 0 then st
  else
    let notional : ℚ := qty * price
    let fee_total := notional * cfg.fee_percent + cfg.fee_fixed
    let settle_date :=
      next_trading_date cfg.trading_dates date_value cfg.sell_settlement_days
    let st' := { st with pending := st.pending ++ [(settle_date, notional - fee_total)] }
    log_order st' date_value "SELL" ticker qty price fee_total
      settle_date settle_date reason

/-- apply_buy: a non-positive quantity is ignored; a total cost above the
available cash makes the call a complete no-op; otherwise cash drops by
the total cost at once and a BUY order is logged with both dates equal
to the trade date. -/
def apply_buy (cfg : SimCfg) (st : SimState) (date_value : ℕ)
    (ticker : String) (qty : ℤ) (price : ℚ) (reason : String) : SimState :=
  if qty ≤ 0 then st
  else
    let notional : ℚ := qty * price
    let fee_total := notional * cfg.fee_percent + cfg.fee_fixed
    let total_cost := notional + fee_total
    if total_cost > st.cash then st
    else
      let st' := { st with cash := st.cash - total_cost }
      log_order st' date_value "BUY" ticker qty price fee_total
        date_value date_value reason

/-- settle_cash: every pending entry whose settlement date has been reached
moves into cash, every later entry stays pending. -/
def settle_cash (st : SimState) (current_date : ℕ) : SimState :=
  { st with
    cash := st.cash +
      ((st.pending.filter (fun p => p.1 ≤ current_date)).map (fun p => p.2)).sum
    pending := st.pending.filter (fun p => ¬ p.1 ≤ current_date) }

/-- Insertion step for sorting rational values ascending. -/
def insertRat (x : ℚ) : List ℚ → List ℚ
  | [] => [x]
  | y :: ys => if x ≤ y then x :: y :: ys else y :: insertRat x ys

/-- Insertion sort of rational values, used by the empirical quantile. -/
def sortRat : List ℚ → List ℚ
  | [] => []
  | x :: xs => insertRat x (sortRat xs)

/-- Insertion step for sorting history pairs by date. -/
def insertByDate (x : ℕ × ℚ) : List (ℕ × ℚ) → List (ℕ × ℚ)
  | [] => [x]
  | y :: ys => if x.1 ≤ y.1 then x :: y :: ys else y :: insertByDate x ys

/-- Insertion sort of an equity history by date, matching the sorted()
call over the history keys. -/
def sortByDate : List (ℕ × ℚ) → List (ℕ × ℚ)
  | [] => []
  | x :: xs => insertByDate x (sortByDate xs)

/-- Empirical 5th-percentile with linear interpolation between order
statistics, as the pandas default quantile computes it. -/
def quantile05 (values : List ℚ) : ℚ :=
  let s := sortRat values
  let n := s.length
  if n = 0 then 0
  else
    let pos : ℚ := (1 / 20) * ((n : ℚ) - 1)
    let i : ℕ := (Rat.floor pos).toNat
    let frac : ℚ := pos - (i : ℚ)
    let a := s.getD i 0
    let b := s.getD (min (i + 1) (n - 1)) 0
    a + frac * (b - a)

/-- Largest element of a list of rationals (0 for the empty list), the
pandas max over a window. -/
def listMax (l : List ℚ) : ℚ :=
  l.foldl max (l.headD 0)

/-- Day-over-day fractional changes of a value series, first entry dropped,
as series.pct_change().dropna() produces. -/
def pctChanges (values : List ℚ) : List ℚ :=
  List.zipWith (fun prev cur => cur / prev - 1) values values.tail

/-- compute_portfolio_metrics: portfolio drawdowns over the trailing 20 and
60 equity values and the 95 percent 1-day VaR over the trailing 252
returns, all null when the window is incomplete or the asof date is not
in the history. -/
def compute_portfolio_metrics (equity_history : List (ℕ × ℚ)) (asof_date : ℕ) :
    Metrics :=
  if ¬ (equity_history.map (fun p => p.1)).contains asof_date then
    fun _ => MetricValue.null
  else
    let values :=
      ((sortByDate equity_history).filter (fun p => p.1 ≤ asof_date)).map
        (fun p => p.2)
    let current := values.getLastD 0
    let dd20 : Option ℚ :=
      if 20 ≤ values.length then
        let max20 := listMax (values.drop (values.length - 20))
        some (if max20 ≠ 0 then 1 - current / max20 else 0)
      else none
    let dd60 : Option ℚ :=
      if 60 ≤ values.length then
        let max60 := listMax (values.drop (values.length - 60))
        some (if max60 ≠ 0 then 1 - current / max60 else 0)
      else none
    let var : Option ℚ :=
      if 253 ≤ values.length then
        let rets := pctChanges values
        let rets252 := rets.drop (rets.length - 252)
        if rets252 ≠ [] then some (-(quantile05 rets252)) else none
      else none
    fun k =>
      if k = "portfolio_drawdown_20d" then
        match dd20 with | none => MetricValue.null | some q => MetricValue.num q
      else if k = "portfolio_drawdown_60d" then
        match dd60 with | none => MetricValue.null | some q => MetricValue.num q
      else if k = "portfolio_var_95_1d_252d" then
        match var with | none => MetricValue.null | some q => MetricValue.num q
      else MetricValue.null

/-- One-per-day quarantine update: every counter drops by one and entries
that reach zero or less are removed. -/
def quarantineTick (q : List (String × ℤ)) : List (String × ℤ) :=
  (q.map (fun p => (p.1, p.2 - 1))).filter (fun p => 0 < p.2)

/-- Decision pass of a day: one (ticker, action, rule id) triple per
currently recorded position, in position insertion order. -/
def decisionsFor (cfg : SimCfg) (st : SimState) (asof : ℕ) (pm : Metrics) :
    List (String × String × String) :=
  st.positions.map (fun p => (p.1, evaluate_action cfg.supervised cfg.ruleset p.1 (cfg.metrics asof p.1) pm))

/-- Update of the running action counters from the decisions of one day. -/
def countActions (st : SimState) (decs : List (String × String × String)) :
    SimState :=
  decs.foldl
    (fun acc dec =>
      if dec.2.1 = "HOLD" then { acc with hold_count := acc.hold_count + 1 }
      else if dec.2.1 = "REDUCE" then { acc with reduce_count := acc.reduce_count + 1 }
      else if dec.2.1 = "ZERO" then { acc with zero_count := acc.zero_count + 1 }
      else acc)
    st

/-- Test used by the REDUCE branch for portfolio-scoped rule ids. -/
def startsWithPortfolio (rule_id : String) : Bool :=
  "PORTFOLIO_".data.isPrefixOf rule_id.data

/-- Fraction of a position sold on REDUCE: the actions.reduce fraction
(default one half), replaced by the actions.portfolio_reduce fraction for
a rule id starting with PORTFOLIO_. -/
def reduceFractionOf (cfg : SimCfg) (rule_id : String) : ℚ :=
  let base := (cfg.ruleset.bind (fun rs => rs.reduce_fraction)).getD (1 / 2)
  if startsWithPortfolio rule_id then
    (cfg.ruleset.bind (fun rs => rs.portfolio_reduce_fraction)).getD base
  else base

/-- Execution of one decision: missing price skips the ticker; ZERO on a
positive position sells everything, zeroes the position and starts the
quarantine; REDUCE sells the floored fraction when positive. -/
def execDecision (cfg : SimCfg) (asof date_value : ℕ) (st : SimState)
    (dec : String × String × String) : SimState :=
  match cfg.price asof dec.1 with
  | none => st
  | some price =>
    let qty := alGet st.positions dec.1 0
    if dec.2.1 = "ZERO" ∧ 0 < qty then
      let st' := apply_sell cfg st date_value dec.1 qty price dec.2.2
      { st' with
        positions := alSet st'.positions dec.1 0
        quarantine := alSet st'.quarantine dec.1 cfg.quarantine_sessions
        n_quarantine_events := st'.n_quarantine_events + 1 }
    else if dec.2.1 = "REDUCE" ∧ 0 < qty then
      let fraction := reduceFractionOf cfg dec.2.2
      let sell_qty : ℤ := Rat.floor ((qty : ℚ) * fraction)
      if 0 < sell_qty then
        let st' := apply_sell cfg st date_value dec.1 sell_qty price dec.2.2
        { st' with positions := alSet st'.positions dec.1 (qty - sell_qty) }
      else st
    else st

/-- Weekly-buy candidate list: supervised tickers neither held nor in
quarantine, in universe iteration order. -/
def eligibleList (cfg : SimCfg) (st : SimState) : List String :=
  cfg.supervised.filter (fun t => ¬ alHas st.positions t ∧ ¬ alHas st.quarantine t)

/-- One weekly-buy attempt for a selected ticker: skip on missing or
non-positive price, size the order from the per-ticker allocation, clamp
it once when the all-in cost overshoots the live cash, then buy and
record the position increase. -/
def weeklyBuyOne (cfg : SimCfg) (asof date_value : ℕ) (alloc : ℚ)
    (st : SimState) (ticker : String) : SimState :=
  match cfg.price asof ticker with
  | none => st
  | some price =>
    if price ≤ 0 then st
    else
      let qty0 : ℤ := Rat.floor (max (alloc - cfg.fee_fixed) 0 / price)
      if qty0 ≤ 0 then st
      else
        let qty : ℤ :=
          if (qty0 : ℚ) * price + cfg.fee_fixed + (qty0 : ℚ) * price * cfg.fee_percent > st.cash
          then Rat.floor (max (st.cash - cfg.fee_fixed) 0 / price)
          else qty0
        if qty ≤ 0 then st
        else
          let st' := apply_buy cfg st date_value ticker qty price "WEEKLY_BUY"
          { st' with positions := alSet st'.positions ticker (alGet st'.positions ticker 0 + qty) }

/-- Weekly-buy phase of a day: with open slots and positive cash, select
the first eligible tickers, split the cash evenly, and attempt one buy
per selected ticker. -/
def weeklyPhase (cfg : SimCfg) (asof date_value : ℕ) (st : SimState) : SimState :=
  let missing : ℤ := max (cfg.target_positions - (st.positions.length : ℤ)) 0
  if 0 < missing ∧ 0 < st.cash then
    let selected := (eligibleList cfg st).take missing.toNat
    if selected ≠ [] then
      let alloc := st.cash / (selected.length : ℚ)
      selected.foldl (weeklyBuyOne cfg asof date_value alloc) st
    else st
  else st

/-- Day-end equity snapshot: cash plus positions marked at the asof price
(missing quotes contribute nothing) plus the pending settlement total,
appended to the equity history under the current date. -/
def equityPhase (cfg : SimCfg) (asof date_value : ℕ) (st : SimState) : SimState :=
  let positions_value :=
    (st.positions.map (fun p =>
      match cfg.price asof p.1 with
      | none => 0
      | some price => (p.2 : ℚ) * price)).sum
  let pending_total := (st.pending.map (fun p => p.2)).sum
  { st with equity_history :=
      st.equity_history ++ [(date_value, st.cash + positions_value + pending_total)] }

/-- Core of one simulated day up to and including the position cleanup:
quarantine decrement, cash settlement, decision pass with counters, and
decision execution. -/
def dayCore (cfg : SimCfg) (asof date_value : ℕ) (st : SimState) : SimState :=
  let st1 := { st with quarantine := quarantineTick st.quarantine }
  let st2 := settle_cash st1 date_value
  let pm := compute_portfolio_metrics st2.equity_history asof
  let decs := decisionsFor cfg st2 asof pm
  let st3 := countActions st2 decs
  let st4 := decs.foldl (execDecision cfg asof date_value) st3
  { st4 with positions := st4.positions.filter (fun p => 0 < p.2) }

/-- One full simulated day: the very first calendar date is skipped
outright; otherwise the day core runs, the weekly-buy phase runs when the
weekday matches or the day is the first simulated one, and the equity
snapshot closes the day. -/
def dayStep (cfg : SimCfg) (sim_first : ℕ) (st : SimState) (current_date : ℕ) :
    SimState :=
  let idx := cfg.trading_dates.indexOf current_date
  if idx = 0 then st
  else
    let asof := cfg.trading_dates.getD (idx - 1) 0
    let st' := dayCore cfg asof current_date st
    let do_weekly :=
      (cfg.weekly_enabled && decide (current_date % 7 = cfg.weekly_weekday))
        || decide (current_date = sim_first)
    let st'' := if do_weekly then weeklyPhase cfg asof current_date st' else st'
    equityPhase cfg asof current_date st''

/-- Trading dates inside the configured simulation range. -/
def simulation_dates (cfg : SimCfg) : List ℕ :=
  cfg.trading_dates.filter (fun d => cfg.start_date ≤ d ∧ d ≤ cfg.end_date)

/-- State at simulation start: full initial capital, empty ledger, and one
equity entry at the initial capital for every calendar date before the
start date. -/
def initState (cfg : SimCfg) : SimState :=
  { cash := cfg.initial_capital
    positions := []
    pending := []
    quarantine := []
    equity_history :=
      (cfg.trading_dates.takeWhile (fun d => d < cfg.start_date)).map
        (fun d => (d, cfg.initial_capital))
    orders := []
    n_quarantine_events := 0
    hold_count := 0
    reduce_count := 0
    zero_count := 0 }

/-- State after the first n simulated days. -/
def runUpTo (cfg : SimCfg) (n : ℕ) : SimState :=
  ((simulation_dates cfg).take n).foldl
    (dayStep cfg ((simulation_dates cfg).headD 0)) (initState cfg)

/-- Final state of the whole simulation. -/
def runSim (cfg : SimCfg) : SimState :=
  (simulation_dates cfg).foldl
    (dayStep cfg ((simulation_dates cfg).headD 0)) (initState cfg)

def scenarioACfg : SimCfg :=
  { trading_dates := [0, 1], start_date := 1, end_date := 1
    initial_capital := 500000, target_positions := 2
    fee_percent := 0, fee_fixed := 0, sell_settlement_days := 2
    weekly_enabled := true, weekly_weekday := 0, quarantine_sessions := 10
    supervised := ["A", "B", "C"]
    price := fun d t =>
      if d = 0 then
        if t = "A" then some 100 else if t = "B" then some 50
        else if t = "C" then some 25 else none
      else none
    metrics := fun _ _ _ => MetricValue.null
    ruleset := none }

def overdrawCfg : SimCfg :=
  { trading_dates := [0, 1, 2, 3, 4], start_date := 1, end_date := 4
    initial_capital := 100, target_positions := 1
    fee_percent := 0, fee_fixed := 10, sell_settlement_days := 2
    weekly_enabled := true, weekly_weekday := 6, quarantine_sessions := 10
    supervised := ["A"]
    price := fun d t =>
      if t = "A" then (if d = 0 then some 1 else some (1 / 100)) else none
    metrics := fun _ _ _ => MetricValue.num 1
    ruleset := some
      { priority_order := ["HARD_STOP"]
        hard_stop := some
          { any_of := some [{ metric := "m", op := ">=", value := 0 }]
            all_of := none, action := some "ZERO" }
        soft_stop := none, portfolio_hard_stop := none
        portfolio_soft_stop := none, ticker_hard_stop := none
        systemic_stress_soft_stop := none, systemic_stress_hard_stop := none
        idiosyncratic_hard_stop := none
        reduce_fraction := none, portfolio_reduce_fraction := none } }

def oversellCfg : SimCfg :=
  { trading_dates := [0, 1, 2, 3], start_date := 1, end_date := 2
    initial_capital := 1000, target_positions := 1
    fee_percent := 0, fee_fixed := 0, sell_settlement_days := 2
    weekly_enabled := true, weekly_weekday := 6, quarantine_sessions := 10
    supervised := ["A"]
    price := fun _ t => if t = "A" then some 100 else none
    metrics := fun _ _ _ => MetricValue.num 1
    ruleset := some
      { priority_order := ["SOFT_STOP"]
        hard_stop := none
        soft_stop := some
          { any_of := some [{ metric := "m", op := ">=", value := 0 }]
            all_of := none, action := some "REDUCE" }
        portfolio_hard_stop := none
        portfolio_soft_stop := none, ticker_hard_stop := none
        systemic_stress_soft_stop := none, systemic_stress_hard_stop := none
        idiosyncratic_hard_stop := none
        reduce_fraction := some 2, portfolio_reduce_fraction := none } }

def firstDayCfg : SimCfg :=
  { trading_dates := [0, 1], start_date := 0, end_date := 1
    initial_capital := 1000, target_positions := 1
    fee_percent := 0, fee_fixed := 0, sell_settlement_days := 2
    weekly_enabled := true, weekly_weekday := 5, quarantine_sessions := 10
    supervised := ["A"]
    price := fun _ t => if t = "A" then some 10 else none
    metrics := fun _ _ _ => MetricValue.null
    ruleset := none }

/-- Helper: a condition whose operator is none of the six recognized ones
evaluates to true as soon as the metric value is numeric, because every
refuting branch of the operator chain is skipped. -/
theorem evalCondition_unknown_op (metrics : Metrics) (c : Cond) (v : ℚ)
    (hv : metrics c.metric = MetricValue.num v)
    (hop : c.op ∉ ([">=", "<=", ">", "<", "==", "!="] : List String)) :
    evalCondition metrics c = true := by
  simp only [List.mem_cons, List.not_mem_nil, or_false, not_or] at hop
  obtain ⟨h1, h2, h3, h4, h5, h6⟩ := hop
  simp [evalCondition, hv, h1, h2, h3, h4, h5, h6]

/-- C5: apply_buy with a positive quantity is a complete no-op (same cash,
positions, pending and order log) when the notional plus fee exceeds the
available cash, and otherwise deducts exactly the notional plus fee from
cash at once and appends one BUY order whose cash delta date and
settlement date are both the trade date. -/
theorem apply_buy_rejects_or_executes (cfg : SimCfg) (st : SimState) (d : ℕ)
    (t : String) (qty : ℤ) (price : ℚ) (reason : String) (hq : 0 < qty) :
    ((qty : ℚ) * price + ((qty : ℚ) * price * cfg.fee_percent + cfg.fee_fixed) > st.cash →
      apply_buy cfg st d t qty price reason = st) ∧
    (¬ ((qty : ℚ) * price + ((qty : ℚ) * price * cfg.fee_percent + cfg.fee_fixed) > st.cash) →
      apply_buy cfg st d t qty price reason =
        { st with
            cash := st.cash -
              ((qty : ℚ) * price + ((qty : ℚ) * price * cfg.fee_percent + cfg.fee_fixed))
            orders := st.orders ++
              [{ date := d, action := "BUY", ticker := t, qty := qty, price := price,
                 fee_total := (qty : ℚ) * price * cfg.fee_percent + cfg.fee_fixed,
                 cash_delta_date := d, settlement_date := d, reason := reason }] }) := by
  have hq' : ¬ qty ≤ 0 := not_le.mpr hq
  constructor
  · intro h
    simp [apply_buy, hq', h]
  · intro h
    simp [apply_buy, log_order, hq', h]

/-- C5 witness: a concrete buy of 3 shares at price 10 with a 1 percent fee
and cash 1000 goes through, leaving cash 1000 - 30.3. -/
theorem apply_buy_rejects_or_executes_witness :
    apply_buy
      { trading_dates := [0], start_date := 0, end_date := 0, initial_capital := 1000
        target_positions := 1, fee_percent := 1 / 100, fee_fixed := 0
        sell_settlement_days := 2, weekly_enabled := true, weekly_weekday := 0
        quarantine_sessions := 10, supervised := [], price := fun _ _ => none
        metrics := fun _ _ _ => MetricValue.null, ruleset := none }
      { cash := 1000, positions := [], pending := [], quarantine := []
        equity_history := [], orders := [], n_quarantine_events := 0
        hold_count := 0, reduce_count := 0, zero_count := 0 }
      0 "A" 3 10 "r" =
    { cash := 1000 - (3 * 10 + (3 * 10 * (1 / 100) + 0)), positions := [], pending := []
      quarantine := [], equity_history := []
      orders := [{ date := 0, action := "BUY", ticker := "A", qty := 3, price := 10,
                   fee_total := 3 * 10 * (1 / 100) + 0, cash_delta_date := 0,
                   settlement_date := 0, reason := "r" }]
      n_quarantine_events := 0, hold_count := 0, reduce_count := 0, zero_count := 0 } := by
  have h := apply_buy_rejects_or_executes
    { trading_dates := [0], start_date := 0, end_date := 0, initial_capital := 1000
      target_positions := 1, fee_percent := 1 / 100, fee_fixed := 0
      sell_settlement_days := 2, weekly_enabled := true, weekly_weekday := 0
      quarantine_sessions := 10, supervised := [], price := fun _ _ => none
      metrics := fun _ _ _ => MetricValue.null, ruleset := none }
    { cash := 1000, positions := [], pending := [], quarantine := []
      equity_history := [], orders := [], n_quarantine_events := 0
      hold_count := 0, reduce_count := 0, zero_count := 0 }
    0 "A" 3 10 "r" (by norm_num)
  exact h.2 (by norm_num)

/-- C7: a condition with a null or NaN metric value is false; with a
numeric value and a recognized operator it is the standard comparison;
an any_of block triggers exactly when some condition of its list holds
and an all_of block exactly when every condition of its list holds. -/
theorem condition_block_semantics (metrics : Metrics) (c : Cond) :
    ((metrics c.metric = MetricValue.null ∨ metrics c.metric = MetricValue.nan) →
      evalCondition metrics c = false) ∧
    (∀ v : ℚ, metrics c.metric = MetricValue.num v →
      (c.op = ">=" → (evalCondition metrics c = true ↔ v ≥ c.value)) ∧
      (c.op = "<=" → (evalCondition metrics c = true ↔ v ≤ c.value)) ∧
      (c.op = ">" → (evalCondition metrics c = true ↔ v > c.value)) ∧
      (c.op = "<" → (evalCondition metrics c = true ↔ v < c.value)) ∧
      (c.op = "==" → (evalCondition metrics c = true ↔ v = c.value)) ∧
      (c.op = "!=" → (evalCondition metrics c = true ↔ v ≠ c.value))) ∧
    (∀ (conds : List Cond) (alo : Option (List Cond)) (act : Option String),
      ((eval_rule_block (some { any_of := some conds, all_of := alo, action := act })
          metrics).1 = true ↔ ∃ c' ∈ conds, evalCondition metrics c' = true) ∧
      ((eval_rule_block (some { any_of := none, all_of := some conds, action := act })
          metrics).1 = true ↔ ∀ c' ∈ conds, evalCondition metrics c' = true)) := by
  refine ⟨?_, ?_, ?_⟩
  · intro h
    rcases h with h | h <;> simp [evalCondition, h]
  · intro v hv
    refine ⟨?_, ?_, ?_, ?_, ?_, ?_⟩ <;> intro hop <;>
      by_cases hvc : v ≥ c.value <;>
        first
          | (constructor
             · intro ht
               by_contra hc
               simp [evalCondition, hv, hop, hc] at ht
             · intro hc
               simp [evalCondition, hv, hop, hc])
  · intro conds alo act
    constructor
    · simp [eval_rule_block, eval_conditions, List.any_eq_true]
    · simp [eval_rule_block, eval_conditions, List.all_eq_true]

/-- C10: a condition whose operator string is not among the six recognized
ones evaluates to true whenever the metric value is present and numeric,
and an all_of block made only of such malformed conditions triggers its
rule instead of being treated as false. -/
theorem unknown_op_triggers (metrics : Metrics) (c : Cond) (v : ℚ)
    (hv : metrics c.metric = MetricValue.num v)
    (hop : c.op ∉ ([">=", "<=", ">", "<", "==", "!="] : List String)) :
    evalCondition metrics c = true ∧
    (∀ (conds : List Cond) (act : Option String),
      (∀ c' ∈ conds, c'.op ∉ ([">=", "<=", ">", "<", "==", "!="] : List String) ∧
        ∃ v' : ℚ, metrics c'.metric = MetricValue.num v') →
      (eval_rule_block (some { any_of := none, all_of := some conds, action := act })
        metrics).1 = true) := by
  constructor
  · exact evalCondition_unknown_op metrics c v hv hop
  · intro conds act h
    simp only [eval_rule_block, eval_conditions, List.all_eq_true]
    intro c' hc'
    obtain ⟨ho', v', hv'⟩ := h c' hc'
    exact evalCondition_unknown_op metrics c' v' hv' ho'

/-- C10 witness: the condition with operator string a tilde on a present
metric evaluates true. -/
theorem unknown_op_triggers_witness :
    evalCondition (fun _ => MetricValue.num 1)
      { metric := "m", op := "~", value := 0 } = true :=
  (unknown_op_triggers (fun _ => MetricValue.num 1)
    { metric := "m", op := "~", value := 0 } 1 rfl (by decide)).1

/-- A four-session calendar with a two-session settlement lag and no fees,
used to exercise the ledger operations in isolation. -/
def ledgerCfg : SimCfg :=
  { trading_dates := [0, 1, 2, 3], start_date := 0, end_date := 3
    initial_capital := 0, target_positions := 0
    fee_percent := 0, fee_fixed := 0, sell_settlement_days := 2
    weekly_enabled := false, weekly_weekday := 0, quarantine_sessions := 10
    supervised := ["A"], price := fun _ _ => none
    metrics := fun _ _ _ => MetricValue.null, ruleset := none }

/-- A ledger state with nothing in it. -/
def emptyState : SimState :=
  { cash := 0, positions := [], pending := [], quarantine := []
    equity_history := [], orders := [], n_quarantine_events := 0
    hold_count := 0, reduce_count := 0, zero_count := 0 }

/-- C2 counterexample: on the calendar 0,1,2,3 with a two-session lag, a
sell executed on the last trading date 3 is scheduled for date 3 itself
(the clamp in next_trading_date), so its proceeds enter cash on the very
day of the sell, zero sessions after it, not two sessions after it. -/
theorem settlement_clamp_counterexample :
    next_trading_date ledgerCfg.trading_dates 3 2 = 3 ∧
    (apply_sell ledgerCfg emptyState 3 "A" 1 5 "r").pending = [(3, 5)] ∧
    (settle_cash (apply_sell ledgerCfg emptyState 3 "A" 1 5 "r") 3).cash = 5 ∧
    (settle_cash (apply_sell ledgerCfg emptyState 3 "A" 1 5 "r") 3).pending = [] := by
  with_unfolding_all decide

/-- C2 amended: on a strictly increasing calendar, for a sell on the i-th
trading date such that at least sellSettlementDays sessions follow it,
the scheduled settlement date is exactly the sellSettlementDays-th
session after the trade date, the sell itself leaves cash untouched and
appends the net proceeds to the pending list, every earlier calendar
date lies strictly before the settlement date, and settleCash on a day D
moves the scheduled amount into cash exactly when D is on or after the
settlement date, keeping it pending otherwise. -/
theorem sell_settlement_amended (cfg : SimCfg) (i : ℕ)
    (hmono : cfg.trading_dates.Pairwise (· < ·))
    (hiN : i + cfg.sell_settlement_days < cfg.trading_dates.length)
    (st : SimState) (t : String) (qty : ℤ) (price : ℚ) (reason : String)
    (hq : 0 < qty) :
    next_trading_date cfg.trading_dates (cfg.trading_dates.getD i 0)
        cfg.sell_settlement_days =
      cfg.trading_dates.getD (i + cfg.sell_settlement_days) 0 ∧
    (apply_sell cfg st (cfg.trading_dates.getD i 0) t qty price reason).cash = st.cash ∧
    (apply_sell cfg st (cfg.trading_dates.getD i 0) t qty price reason).pending =
      st.pending ++ [(cfg.trading_dates.getD (i + cfg.sell_settlement_days) 0,
        (qty : ℚ) * price - ((qty : ℚ) * price * cfg.fee_percent + cfg.fee_fixed))] ∧
    (∀ j : ℕ, j < i + cfg.sell_settlement_days →
      cfg.trading_dates.getD j 0 <
        cfg.trading_dates.getD (i + cfg.sell_settlement_days) 0) ∧
    (∀ (sd D : ℕ) (a : ℚ) (st' : SimState),
      (settle_cash { st' with pending := st'.pending ++ [(sd, a)] } D).cash
        = (settle_cash st' D).cash + (if sd ≤ D then a else 0) ∧
      (settle_cash { st' with pending := st'.pending ++ [(sd, a)] } D).pending
        = (settle_cash st' D).pending ++ (if sd ≤ D then [] else [(sd, a)])) := by
  have hq' : ¬ qty ≤ 0 := not_le.mpr hq
  have hlen : i < cfg.trading_dates.length :=
    lt_of_le_of_lt (Nat.le_add_right _ _) hiN
  have hnd : cfg.trading_dates.Nodup := hmono.imp (fun h => ne_of_lt h)
  have hidx : cfg.trading_dates.indexOf (cfg.trading_dates.getD i 0) = i := by
    rw [List.getD_eq_getElem _ _ hlen]
    exact List.indexOf_getElem hnd i hlen
  have hntd : next_trading_date cfg.trading_dates (cfg.trading_dates.getD i 0)
      cfg.sell_settlement_days =
      cfg.trading_dates.getD (i + cfg.sell_settlement_days) 0 := by
    unfold next_trading_date
    rw [hidx]
    rw [if_neg (by omega)]
  have hsell : ∀ d : ℕ,
      (apply_sell cfg st d t qty price reason).pending =
        st.pending ++ [(next_trading_date cfg.trading_dates d cfg.sell_settlement_days,
          (qty : ℚ) * price - ((qty : ℚ) * price * cfg.fee_percent + cfg.fee_fixed))] := by
    intro d
    simp [apply_sell, log_order, hq']
  refine ⟨hntd, ?_, ?_, ?_, ?_⟩
  · simp [apply_sell, log_order, hq']
  · rw [hsell, hntd]
  · intro j hj
    have hjlen : j < cfg.trading_dates.length := lt_trans hj hiN
    rw [List.getD_eq_getElem _ _ hjlen, List.getD_eq_getElem _ _ hiN]
    exact List.pairwise_iff_getElem.mp hmono j (i + cfg.sell_settlement_days)
      hjlen hiN hj
  · intro sd D a st'
    by_cases hsd : sd ≤ D
    · constructor
      · simp [settle_cash, List.filter_append, hsd]
        ring
      · simp [settle_cash, List.filter_append, hsd]
    · constructor
      · simp [settle_cash, List.filter_append, hsd]
      · simp [settle_cash, List.filter_append, hsd]
        omega

/-- C2 witness: on the calendar 0,1,2,3 a sell at date 0 with a
two-session lag settles at date 2 and leaves cash unchanged. -/
theorem sell_settlement_amended_witness :
    next_trading_date ledgerCfg.trading_dates (ledgerCfg.trading_dates.getD 0 0)
        ledgerCfg.sell_settlement_days =
      ledgerCfg.trading_dates.getD (0 + ledgerCfg.sell_settlement_days) 0 ∧
    (apply_sell ledgerCfg emptyState (ledgerCfg.trading_dates.getD 0 0)
      "A" 1 5 "r").cash = emptyState.cash := by
  have h := sell_settlement_amended ledgerCfg 0 (by decide) (by decide)
    emptyState "A" 1 5 "r" (by decide)
  exact ⟨h.1, h.2.1⟩

/-- Specification-side reading of the dispatch: the condition block the
evaluate_action loop consults for a given rule identifier, none for an
identifier the loop does not recognize. -/
def specRuleBlock (rs : Ruleset) (rule_id : String) : Option Block :=
  if rule_id = "HARD_STOP" then rs.hard_stop
  else if rule_id = "SOFT_STOP" then rs.soft_stop
  else if rule_id = "PORTFOLIO_HARD_STOP" then rs.portfolio_hard_stop
  else if rule_id = "PORTFOLIO_SOFT_STOP" then rs.portfolio_soft_stop
  else if rule_id = "TICKER_HARD_STOP" then rs.ticker_hard_stop
  else if rule_id = "SYSTEMIC_STRESS_SOFT_STOP" then rs.systemic_stress_soft_stop
  else if rule_id = "SYSTEMIC_STRESS_HARD_STOP" then rs.systemic_stress_hard_stop
  else if rule_id = "IDIOSYNCRATIC_HARD_STOP" then rs.idiosyncratic_hard_stop
  else none

/-- Specification-side reading of the metric scope: portfolio-level rules
read the portfolio metrics, every other rule the ticker metrics. -/
def specRuleScope (rule_id : String) (metrics pm : Metrics) : Metrics :=
  if rule_id = "PORTFOLIO_HARD_STOP" ∨ rule_id = "PORTFOLIO_SOFT_STOP" then pm
  else metrics

/-- Specification-side trigger test for one rule identifier. -/
def specRuleTriggers (rs : Ruleset) (metrics pm : Metrics) (rule_id : String) :
    Bool :=
  (eval_rule_block (specRuleBlock rs rule_id) (specRuleScope rule_id metrics pm)).1

/-- Helper: for a supervised ticker the dispatch loop returns the action and
identifier of the first rule of the list whose block triggers, and the
default otherwise. -/
theorem evalActionLoop_eq_find (supervised : List String) (rs : Ruleset)
    (tkr : String) (metrics pm : Metrics)
    (hsup : supervised.contains tkr = true) (l : List String) :
    evalActionLoop supervised (some rs) tkr metrics pm l =
      match l.find? (specRuleTriggers rs metrics pm) with
      | some rid => (map_action (eval_rule_block (specRuleBlock rs rid)
          (specRuleScope rid metrics pm)).2, rid)
      | none => ("HOLD", "DEFAULT_HOLD") := by
  have hmem : tkr ∈ supervised := by simpa using hsup
  induction l with
  | nil => rfl
  | cons rid rest ih =>
    by_cases h1 : rid = "EXIT_IF_NOT_IN_SUPERVISED"
    · subst h1
      simp [evalActionLoop, hmem, specRuleTriggers, specRuleBlock,
        eval_rule_block, ih]
    · by_cases h2 : rid = "HARD_STOP"
      · subst h2
        by_cases ht : (eval_rule_block rs.hard_stop metrics).1 = true
        · simp [evalActionLoop, specRuleTriggers, specRuleBlock, specRuleScope, ht]
        · simp [evalActionLoop, specRuleTriggers, specRuleBlock, specRuleScope, ht, ih]
      · by_cases h3 : rid = "SOFT_STOP"
        · subst h3
          by_cases ht : (eval_rule_block rs.soft_stop metrics).1 = true
          · simp [evalActionLoop, specRuleTriggers, specRuleBlock, specRuleScope, ht]
          · simp [evalActionLoop, specRuleTriggers, specRuleBlock, specRuleScope, ht, ih]
        · by_cases h4 : rid = "PORTFOLIO_HARD_STOP"
          · subst h4
            by_cases ht : (eval_rule_block rs.portfolio_hard_stop pm).1 = true
            · simp [evalActionLoop, specRuleTriggers, specRuleBlock, specRuleScope, ht]
            · simp [evalActionLoop, specRuleTriggers, specRuleBlock, specRuleScope, ht, ih]
          · by_cases h5 : rid = "PORTFOLIO_SOFT_STOP"
            · subst h5
              by_cases ht : (eval_rule_block rs.portfolio_soft_stop pm).1 = true
              · simp [evalActionLoop, specRuleTriggers, specRuleBlock, specRuleScope, ht]
              · simp [evalActionLoop, specRuleTriggers, specRuleBlock, specRuleScope, ht, ih]
            · by_cases h6 : rid = "TICKER_HARD_STOP"
              · subst h6
                by_cases ht : (eval_rule_block rs.ticker_hard_stop metrics).1 = true
                · simp [evalActionLoop, specRuleTriggers, specRuleBlock, specRuleScope, ht]
                · simp [evalActionLoop, specRuleTriggers, specRuleBlock, specRuleScope, ht, ih]
              · by_cases h7 : rid = "SYSTEMIC_STRESS_SOFT_STOP"
                · subst h7
                  by_cases ht : (eval_rule_block rs.systemic_stress_soft_stop metrics).1 = true
                  · simp [evalActionLoop, specRuleTriggers, specRuleBlock, specRuleScope, ht]
                  · simp [evalActionLoop, specRuleTriggers, specRuleBlock, specRuleScope, ht, ih]
                · by_cases h8 : rid = "SYSTEMIC_STRESS_HARD_STOP"
                  · subst h8
                    by_cases ht : (eval_rule_block rs.systemic_stress_hard_stop metrics).1 = true
                    · simp [evalActionLoop, specRuleTriggers, specRuleBlock, specRuleScope, ht]
                    · simp [evalActionLoop, specRuleTriggers, specRuleBlock, specRuleScope, ht, ih]
                  · by_cases h9 : rid = "IDIOSYNCRATIC_HARD_STOP"
                    · subst h9
                      by_cases ht : (eval_rule_block rs.idiosyncratic_hard_stop metrics).1 = true
                      · simp [evalActionLoop, specRuleTriggers, specRuleBlock, specRuleScope, ht]
                      · simp [evalActionLoop, specRuleTriggers, specRuleBlock, specRuleScope, ht, ih]
                    · have htf : specRuleTriggers rs metrics pm rid = false := by
                        simp [specRuleTriggers, specRuleBlock, eval_rule_block,
                          h2, h3, h4, h5, h6, h7, h8, h9]
                      rw [List.find?_cons_of_neg _ (by simp [htf])]
                      simp [evalActionLoop, h1, h2, h3, h4, h5, h6, h7, h8, h9, ih]

/-- C3: a ticker outside the supervised universe always yields
(ZERO, EXIT_IF_NOT_IN_SUPERVISED) whatever the ruleset; for a supervised
ticker the result is the normalized action and identifier of the
earliest rule of priority_order whose block triggers, or
(HOLD, DEFAULT_HOLD) when none does; and the normalization keeps ZERO,
REDUCE and HOLD, sends PORTFOLIO_REDUCE to REDUCE, TICKER_ZERO to ZERO
and anything else to HOLD. -/
theorem evaluate_action_priority (supervised : List String) (rs : Ruleset)
    (tkr : String) (metrics pm : Metrics) :
    (supervised.contains tkr = false →
      ∀ rsO : Option Ruleset,
        evaluate_action supervised rsO tkr metrics pm =
          ("ZERO", "EXIT_IF_NOT_IN_SUPERVISED")) ∧
    (supervised.contains tkr = true →
      evaluate_action supervised (some rs) tkr metrics pm =
        match rs.priority_order.find? (specRuleTriggers rs metrics pm) with
        | some rid => (map_action (eval_rule_block (specRuleBlock rs rid)
            (specRuleScope rid metrics pm)).2, rid)
        | none => ("HOLD", "DEFAULT_HOLD")) ∧
    (map_action (some "ZERO") = "ZERO" ∧ map_action (some "REDUCE") = "REDUCE" ∧
      map_action (some "HOLD") = "HOLD" ∧
      map_action (some "PORTFOLIO_REDUCE") = "REDUCE" ∧
      map_action (some "TICKER_ZERO") = "ZERO" ∧
      (∀ a : String,
        a ∉ (["ZERO", "REDUCE", "HOLD", "PORTFOLIO_REDUCE", "TICKER_ZERO"] : List String) →
        map_action (some a) = "HOLD")) := by
  refine ⟨?_, ?_, ?_⟩
  · intro h rsO
    have hmem : tkr ∉ supervised := by simpa using h
    simp [evaluate_action, hmem]
  · intro h
    have hmem : tkr ∈ supervised := by simpa using h
    rw [evaluate_action, if_neg (by simp [hmem])]
    exact evalActionLoop_eq_find supervised rs tkr metrics pm h rs.priority_order
  · refine ⟨rfl, rfl, rfl, rfl, rfl, ?_⟩
    intro a ha
    simp only [List.mem_cons, List.not_mem_nil, or_false, not_or] at ha
    obtain ⟨n1, n2, n3, n4, n5⟩ := ha
    by_cases he : a = ""
    · simp [map_action, he]
    · simp [map_action, he, n1, n2, n3, n4, n5]

/-- A ruleset whose first two priority entries both trigger, used to watch
the earliest one win. -/
def priorityW : Ruleset :=
  { priority_order := ["SOFT_STOP", "HARD_STOP"]
    hard_stop := some
      { any_of := some [{ metric := "m", op := ">=", value := 0 }]
        all_of := none, action := some "ZERO" }
    soft_stop := some
      { any_of := some [{ metric := "m", op := ">=", value := 0 }]
        all_of := none, action := some "REDUCE" }
    portfolio_hard_stop := none, portfolio_soft_stop := none
    ticker_hard_stop := none, systemic_stress_soft_stop := none
    systemic_stress_hard_stop := none, idiosyncratic_hard_stop := none
    reduce_fraction := none, portfolio_reduce_fraction := none }

/-- C3 witness: with both SOFT_STOP and HARD_STOP triggering, the earlier
SOFT_STOP wins and its REDUCE action is emitted. -/
theorem evaluate_action_priority_witness :
    evaluate_action ["A"] (some priorityW) "A"
      (fun _ => MetricValue.num 1) (fun _ => MetricValue.null) =
      ("REDUCE", "SOFT_STOP") := by
  have h := (evaluate_action_priority ["A"] priorityW "A"
    (fun _ => MetricValue.num 1) (fun _ => MetricValue.null)).2.1 (by decide)
  rw [h]
  with_unfolding_all decide

/-- C8: Scenario A: with capital 500000, two target positions, zero fees
and universe A, B, C priced 100, 50, 25 on the asof date of the first
simulated day, the weekly buy takes A and B, splits 250000 to each,
buys 2500 A and 5000 B, ends with cash exactly 0 and never touches C. -/
theorem scenarioA_run :
    (runSim scenarioACfg).cash = 0 ∧
    (runSim scenarioACfg).positions = [("A", 2500), ("B", 5000)] ∧
    (runSim scenarioACfg).orders.map (fun o => (o.action, o.ticker, o.qty, o.price)) =
      [("BUY", "A", 2500, (100 : ℚ)), ("BUY", "B", 5000, (50 : ℚ))] ∧
    (runSim scenarioACfg).orders.filter (fun o => o.ticker == "C") = [] := by
  with_unfolding_all decide

set_option maxRecDepth 4000 in
/-- C9 counterexample: when the first simulated day is also the very first
date of the trading calendar, the whole day including its weekly buy is
skipped, although a slot is open and cash is positive: the day leaves
the state untouched and the run never places an order. -/
theorem first_calendar_day_skip_counterexample :
    (simulation_dates firstDayCfg).headD 0 = 0 ∧
    firstDayCfg.trading_dates.indexOf 0 = 0 ∧
    0 < (initState firstDayCfg).cash ∧
    0 < firstDayCfg.target_positions - ((initState firstDayCfg).positions.length : ℤ) ∧
    runUpTo firstDayCfg 1 = initState firstDayCfg ∧
    (runSim firstDayCfg).orders = [] := by
  with_unfolding_all decide

/-- C9 amended: on the first simulated day the weekly-buy phase runs
unconditionally, independent of the configured weekday and of the
enabled flag, subject only to the open-slot and positive-cash gates
inside the phase, provided that day has a preceding trading date; a day
sitting at the very start of the trading calendar is skipped whole. -/
theorem first_day_weekly_buy_amended (cfg : SimCfg) (st : SimState) (d : ℕ) :
    (cfg.trading_dates.indexOf d = 0 → ∀ f : ℕ, dayStep cfg f st d = st) ∧
    (cfg.trading_dates.indexOf d ≠ 0 →
      dayStep cfg d st d =
        equityPhase cfg (cfg.trading_dates.getD (cfg.trading_dates.indexOf d - 1) 0) d
          (weeklyPhase cfg (cfg.trading_dates.getD (cfg.trading_dates.indexOf d - 1) 0) d
            (dayCore cfg (cfg.trading_dates.getD (cfg.trading_dates.indexOf d - 1) 0) d
              st))) := by
  constructor
  · intro h f
    simp [dayStep, h]
  · intro h
    simp [dayStep, h]

/-- C9 witness: a concrete day with a preceding calendar date runs through
the core, weekly and equity phases. -/
theorem first_day_weekly_buy_amended_witness :
    dayStep ledgerCfg 1 emptyState 1 =
      equityPhase ledgerCfg
        (ledgerCfg.trading_dates.getD (ledgerCfg.trading_dates.indexOf 1 - 1) 0) 1
        (weeklyPhase ledgerCfg
          (ledgerCfg.trading_dates.getD (ledgerCfg.trading_dates.indexOf 1 - 1) 0) 1
          (dayCore ledgerCfg
            (ledgerCfg.trading_dates.getD (ledgerCfg.trading_dates.indexOf 1 - 1) 0) 1
            emptyState)) :=
  (first_day_weekly_buy_amended ledgerCfg emptyState 1).2 (by decide)

/-- Helper: a property of the state preserved by every step of a fold is
preserved by the whole fold. -/
theorem foldl_preserves {β : Type _} {P : SimState → Prop}
    {f : SimState → β → SimState} (hf : ∀ st a, P st → P (f st a)) :
    ∀ (l : List β) (st : SimState), P st → P (l.foldl f st)
  | [], _, h => h
  | a :: l, st, h => foldl_preserves hf l (f st a) (hf st a h)

/-- The cash-side invariant: cash is non-negative and so is every pending
settlement amount. -/
def LedgerNonneg (st : SimState) : Prop :=
  0 ≤ st.cash ∧ ∀ p ∈ st.pending, (0 : ℚ) ≤ p.2

/-- Helper: settling cash preserves the cash invariant. -/
theorem settle_cash_ledger (st : SimState) (d : ℕ) (h : LedgerNonneg st) :
    LedgerNonneg (settle_cash st d) := by
  constructor
  · have hsum : 0 ≤ ((st.pending.filter (fun p => p.1 ≤ d)).map (fun p => p.2)).sum := by
      apply List.sum_nonneg
      intro x hx
      obtain ⟨p, hp, rfl⟩ := List.mem_map.mp hx
      exact h.2 p (List.mem_of_mem_filter hp)
    exact add_nonneg h.1 hsum
  · intro p hp
    exact h.2 p (List.mem_of_mem_filter hp)

/-- Helper: a buy preserves the cash invariant, because it only happens
when the full cost is covered. -/
theorem apply_buy_ledger (cfg : SimCfg) (st : SimState) (d : ℕ) (t : String)
    (qty : ℤ) (price : ℚ) (reason : String) (h : LedgerNonneg st) :
    LedgerNonneg (apply_buy cfg st d t qty price reason) := by
  unfold apply_buy
  split
  · exact h
  · dsimp only
    split
    · exact h
    · rename_i hc
      push_neg at hc
      exact ⟨by simpa [log_order] using sub_nonneg.mpr hc, h.2⟩

/-- Helper: with a zero fixed fee, a percent fee at most one and a
non-negative price, a sell schedules a non-negative amount and preserves
the cash invariant. -/
theorem apply_sell_ledger (cfg : SimCfg) (_hfp0 : 0 ≤ cfg.fee_percent)
    (hfp1 : cfg.fee_percent ≤ 1) (hff : cfg.fee_fixed = 0)
    (st : SimState) (d : ℕ) (t : String) (qty : ℤ) (price : ℚ) (reason : String)
    (hpnn : 0 ≤ price) (h : LedgerNonneg st) :
    LedgerNonneg (apply_sell cfg st d t qty price reason) := by
  unfold apply_sell
  split
  · exact h
  · rename_i hq
    push_neg at hq
    refine ⟨h.1, ?_⟩
    intro p hp
    simp only [log_order, List.mem_append, List.mem_singleton] at hp
    rcases hp with hmem | rfl
    · exact h.2 p hmem
    · have hqq : (0 : ℚ) ≤ (qty : ℚ) := by exact_mod_cast le_of_lt hq
      have hn : (0 : ℚ) ≤ (qty : ℚ) * price := mul_nonneg hqq hpnn
      have := mul_nonneg hn (sub_nonneg.mpr hfp1)
      dsimp only
      rw [hff]
      nlinarith

/-- Helper: executing one decision preserves the cash invariant when fees
and prices satisfy the amended conditions. -/
theorem execDecision_ledger (cfg : SimCfg) (hfp0 : 0 ≤ cfg.fee_percent)
    (hfp1 : cfg.fee_percent ≤ 1) (hff : cfg.fee_fixed = 0)
    (hpr : ∀ (d : ℕ) (t : String) (p : ℚ), cfg.price d t = some p → 0 ≤ p)
    (asof d : ℕ) (st : SimState) (dec : String × String × String)
    (h : LedgerNonneg st) : LedgerNonneg (execDecision cfg asof d st dec) := by
  unfold execDecision
  cases hp : cfg.price asof dec.1 with
  | none => exact h
  | some price =>
    have hpnn : 0 ≤ price := hpr asof dec.1 price hp
    dsimp only
    split
    · exact
        (apply_sell_ledger cfg hfp0 hfp1 hff st d dec.1 (alGet st.positions dec.1 0)
          price dec.2.2 hpnn h)
    · split
      · split
        · exact
            (apply_sell_ledger cfg hfp0 hfp1 hff st d dec.1 _ price dec.2.2 hpnn h)
        · exact h
      · exact h

/-- Helper: one weekly-buy attempt preserves the cash invariant. -/
theorem weeklyBuyOne_ledger (cfg : SimCfg) (asof d : ℕ) (alloc : ℚ)
    (st : SimState) (t : String) (h : LedgerNonneg st) :
    LedgerNonneg (weeklyBuyOne cfg asof d alloc st t) := by
  unfold weeklyBuyOne
  cases hp : cfg.price asof t with
  | none => exact h
  | some price =>
    dsimp only
    repeat' split
    all_goals
      first
        | exact h
        | exact apply_buy_ledger cfg st d t _ price "WEEKLY_BUY" h

/-- Helper: the whole weekly-buy phase preserves the cash invariant. -/
theorem weeklyPhase_ledger (cfg : SimCfg) (asof d : ℕ) (st : SimState)
    (h : LedgerNonneg st) : LedgerNonneg (weeklyPhase cfg asof d st) := by
  unfold weeklyPhase
  dsimp only
  split
  · split
    · exact foldl_preserves
        (fun st' t h' => weeklyBuyOne_ledger cfg asof d _ st' t h') _ st h
    · exact h
  · exact h

/-- Helper: the cash invariant only reads cash and pending, so any state
sharing those two fields inherits it. -/
theorem ledger_of_eq {st st' : SimState} (hc : st'.cash = st.cash)
    (hp : st'.pending = st.pending) (h : LedgerNonneg st) : LedgerNonneg st' := by
  rw [LedgerNonneg, hc, hp]
  exact h

/-- Helper: the action counters never touch cash or pending. -/
theorem countActions_ledger (st : SimState)
    (decs : List (String × String × String)) (h : LedgerNonneg st) :
    LedgerNonneg (countActions st decs) := by
  unfold countActions
  refine foldl_preserves ?_ decs st h
  intro st' a h'
  dsimp only
  repeat' split
  all_goals exact ledger_of_eq rfl rfl h'

/-- Helper: one full simulated day preserves the cash invariant. -/
theorem dayStep_ledger (cfg : SimCfg) (hfp0 : 0 ≤ cfg.fee_percent)
    (hfp1 : cfg.fee_percent ≤ 1) (hff : cfg.fee_fixed = 0)
    (hpr : ∀ (d : ℕ) (t : String) (p : ℚ), cfg.price d t = some p → 0 ≤ p)
    (f : ℕ) (st : SimState) (d : ℕ) (h : LedgerNonneg st) :
    LedgerNonneg (dayStep cfg f st d) := by
  have hcore : ∀ asof : ℕ, LedgerNonneg (dayCore cfg asof d st) := by
    intro asof
    unfold dayCore
    dsimp only
    refine ledger_of_eq rfl rfl ?_
    refine foldl_preserves
      (fun st' dec h' => execDecision_ledger cfg hfp0 hfp1 hff hpr asof d st' dec h')
      _ _ ?_
    refine countActions_ledger _ _ ?_
    refine settle_cash_ledger _ d ?_
    exact ledger_of_eq rfl rfl h
  unfold dayStep
  dsimp only
  split
  · exact h
  · split
    · exact ledger_of_eq rfl rfl (weeklyPhase_ledger cfg _ d _ (hcore _))
    · exact ledger_of_eq rfl rfl (hcore _)

/-- C1 counterexample: with a positive fixed fee per order the simulation
drives cash strictly below zero: the run buys 90 shares at price 1 with
a 10 unit fixed fee, a ZERO rule later sells them at price 1/100, the
sale proceeds 0.9 minus the 10 unit fee settle as -9.1, and final cash
is -91/10, although feePercent and feeFixed are both non-negative. -/
theorem overdraw_claim_counterexample :
    (runSim overdrawCfg).cash < 0 ∧
    0 ≤ overdrawCfg.fee_percent ∧ 0 ≤ overdrawCfg.fee_fixed := by
  with_unfolding_all decide

/-- C1 amended: with a non-negative initial capital, a zero fixed fee, a
percent fee between zero and one and non-negative quoted prices, cash
stays non-negative after every simulated day, because a buy only
executes when fully covered and every pending sale amount is then
non-negative. -/
theorem cash_nonneg_amended (cfg : SimCfg)
    (hcap : 0 ≤ cfg.initial_capital) (hfp0 : 0 ≤ cfg.fee_percent)
    (hfp1 : cfg.fee_percent ≤ 1) (hff : cfg.fee_fixed = 0)
    (hpr : ∀ (d : ℕ) (t : String) (p : ℚ), cfg.price d t = some p → 0 ≤ p) :
    ∀ n : ℕ, 0 ≤ (runUpTo cfg n).cash := by
  intro n
  have hinit : LedgerNonneg (initState cfg) := by
    refine ⟨hcap, ?_⟩
    intro p hp
    simp [initState] at hp
  exact (foldl_preserves
    (fun st d h => dayStep_ledger cfg hfp0 hfp1 hff hpr _ st d h)
    _ _ hinit).1

/-- C1 witness: the fee-free single-ticker run keeps cash non-negative
after two days. -/
theorem cash_nonneg_amended_witness : 0 ≤ (runUpTo firstDayCfg 2).cash := by
  apply cash_nonneg_amended firstDayCfg
  · norm_num [firstDayCfg]
  · norm_num [firstDayCfg]
  · norm_num [firstDayCfg]
  · norm_num [firstDayCfg]
  · intro d t p h
    by_cases ht : t = "A" <;> simp [firstDayCfg, ht] at h
    subst h
    norm_num

/-- Helper: the floor used by the runner agrees with the Mathlib floor. -/
theorem ratFloor_eq_intFloor (q : ℚ) : Rat.floor q = ⌊q⌋ := rfl

/-- Helper: a lookup with default zero in a table of non-negative values is
non-negative. -/
theorem alGet_nonneg (m : List (String × ℤ)) (k : String)
    (h : ∀ p ∈ m, (0 : ℤ) ≤ p.2) : 0 ≤ alGet m k 0 := by
  unfold alGet
  cases hf : m.find? (fun p => p.1 == k) with
  | none => exact le_refl 0
  | some p => exact h p (List.mem_of_find?_eq_some hf)

/-- Helper: assignment preserves a pointwise property of the stored values
when the new value satisfies it. -/
theorem alSet_forall {P : ℤ → Prop} (m : List (String × ℤ)) (k : String) (v : ℤ)
    (h : ∀ p ∈ m, P p.2) (hv : P v) : ∀ p ∈ alSet m k v, P p.2 := by
  intro p hp
  unfold alSet at hp
  split at hp
  · obtain ⟨q, hq, rfl⟩ := List.mem_map.mp hp
    split
    · exact hv
    · exact h q hq
  · rcases List.mem_append.mp hp with hm | hm
    · exact h p hm
    · simp only [List.mem_singleton] at hm
      rw [hm]
      exact hv

/-- The position-side invariant: every stored quantity is non-negative. -/
def PositionsNonneg (st : SimState) : Prop :=
  ∀ p ∈ st.positions, (0 : ℤ) ≤ p.2

/-- Helper: the position invariant only reads the positions field. -/
theorem positions_of_eq {st st' : SimState}
    (hp : st'.positions = st.positions) (h : PositionsNonneg st) :
    PositionsNonneg st' := by
  rw [PositionsNonneg, hp]
  exact h

/-- Helper: a sell never touches the positions table. -/
theorem apply_sell_positions (cfg : SimCfg) (st : SimState) (d : ℕ)
    (t : String) (qty : ℤ) (price : ℚ) (reason : String) :
    (apply_sell cfg st d t qty price reason).positions = st.positions := by
  unfold apply_sell log_order
  split <;> rfl

/-- Helper: a buy never touches the positions table. -/
theorem apply_buy_positions (cfg : SimCfg) (st : SimState) (d : ℕ)
    (t : String) (qty : ℤ) (price : ℚ) (reason : String) :
    (apply_buy cfg st d t qty price reason).positions = st.positions := by
  unfold apply_buy log_order
  split
  · rfl
  · dsimp only
    split <;> rfl

/-- Helper: with both configured REDUCE fractions at most one, the floored
sell quantity never exceeds the held quantity. -/
theorem reduce_qty_le (cfg : SimCfg) (hfr : ∀ rid : String, reduceFractionOf cfg rid ≤ 1)
    (rid : String) (qty : ℤ) (hq : 0 < qty) :
    Rat.floor ((qty : ℚ) * reduceFractionOf cfg rid) ≤ qty := by
  rw [ratFloor_eq_intFloor]
  have hle : (qty : ℚ) * reduceFractionOf cfg rid ≤ ((qty : ℤ) : ℚ) := by
    have hqq : (0 : ℚ) ≤ (qty : ℚ) := by exact_mod_cast le_of_lt hq
    nlinarith [hfr rid]
  calc ⌊(qty : ℚ) * reduceFractionOf cfg rid⌋ ≤ ⌊((qty : ℤ) : ℚ)⌋ := Int.floor_mono hle
    _ = qty := Int.floor_intCast qty

/-- Helper: executing one decision keeps every stored quantity non-negative
when the configured REDUCE fractions are at most one. -/
theorem execDecision_pos (cfg : SimCfg)
    (hfr : ∀ rid : String, reduceFractionOf cfg rid ≤ 1) (asof d : ℕ)
    (st : SimState) (dec : String × String × String) (h : PositionsNonneg st) :
    PositionsNonneg (execDecision cfg asof d st dec) := by
  unfold execDecision
  cases hp : cfg.price asof dec.1 with
  | none => exact h
  | some price =>
    dsimp only
    split
    · exact alSet_forall _ _ _
        (by rw [apply_sell_positions]; exact h) le_rfl
    · split
      · rename_i hnz hred
        split
        · rename_i hsq
          refine alSet_forall _ _ _
            (by rw [apply_sell_positions]; exact h) ?_
          have := reduce_qty_le cfg hfr dec.2.2 _ hred.2
          omega
        · exact h
      · exact h

/-- Helper: one weekly-buy attempt keeps every stored quantity
non-negative. -/
theorem weeklyBuyOne_pos (cfg : SimCfg) (asof d : ℕ) (alloc : ℚ)
    (st : SimState) (t : String) (h : PositionsNonneg st) :
    PositionsNonneg (weeklyBuyOne cfg asof d alloc st t) := by
  unfold weeklyBuyOne
  cases hp : cfg.price asof t with
  | none => exact h
  | some price =>
    dsimp only
    repeat' split
    all_goals
      first
        | exact h
        | (rename_i hq
           refine alSet_forall _ _ _
             (by rw [apply_buy_positions]; exact h) ?_
           rw [apply_buy_positions]
           have h1 := alGet_nonneg st.positions t h
           omega)

/-- Helper: the weekly phase keeps every stored quantity non-negative. -/
theorem weeklyPhase_pos (cfg : SimCfg) (asof d : ℕ) (st : SimState)
    (h : PositionsNonneg st) : PositionsNonneg (weeklyPhase cfg asof d st) := by
  unfold weeklyPhase
  dsimp only
  split
  · split
    · exact foldl_preserves
        (fun st' t h' => weeklyBuyOne_pos cfg asof d _ st' t h') _ st h
    · exact h
  · exact h

/-- Helper: the action counters never touch positions. -/
theorem countActions_positions (st : SimState)
    (decs : List (String × String × String)) :
    (countActions st decs).positions = st.positions := by
  unfold countActions
  refine foldl_preserves (P := fun s => s.positions = st.positions) ?_ decs st rfl
  intro st' a h'
  dsimp only
  repeat' split
  all_goals exact h'

/-- Helper: one full simulated day keeps every stored quantity
non-negative. -/
theorem dayStep_pos (cfg : SimCfg)
    (hfr : ∀ rid : String, reduceFractionOf cfg rid ≤ 1)
    (f : ℕ) (st : SimState) (d : ℕ) (h : PositionsNonneg st) :
    PositionsNonneg (dayStep cfg f st d) := by
  have hcore : ∀ asof : ℕ, PositionsNonneg (dayCore cfg asof d st) := by
    intro asof
    unfold dayCore
    dsimp only
    intro p hpm
    have hmem := List.mem_of_mem_filter hpm
    refine foldl_preserves
      (fun st' dec h' => execDecision_pos cfg hfr asof d st' dec h') _ _ ?_ p hmem
    refine positions_of_eq (countActions_positions _ _) ?_
    exact positions_of_eq rfl h
  unfold dayStep
  dsimp only
  split
  · exact h
  · split
    · exact positions_of_eq rfl (weeklyPhase_pos cfg _ d _ (hcore _))
    · exact positions_of_eq rfl (hcore _)

/-- C6 counterexample: with the configured REDUCE fraction set to 2 the
run first buys 10 shares of A and then sells 20 shares of A in a single
REDUCE, an oversell of twice the held quantity (the position held after
the buy day is 10). -/
theorem oversell_counterexample :
    (runSim oversellCfg).orders.map (fun o => (o.action, o.ticker, o.qty)) =
      [("BUY", "A", 10), ("SELL", "A", 20)] ∧
    (runUpTo oversellCfg 1).positions = [("A", 10)] := by
  with_unfolding_all decide

/-- C6 amended: when every configured REDUCE fraction is at most one,
every stored position quantity stays non-negative on every simulated
day, every order added by the execution of one decision is a SELL of at
most the quantity held in that ticker when the decision is executed, and
the weekly-buy phase only ever adds BUY orders. -/
theorem positions_nonneg_amended (cfg : SimCfg)
    (hfr : ∀ rid : String, reduceFractionOf cfg rid ≤ 1) :
    (∀ n : ℕ, ∀ p ∈ (runUpTo cfg n).positions, (0 : ℤ) ≤ p.2) ∧
    (∀ (asof d : ℕ) (st : SimState) (dec : String × String × String),
      ∀ o ∈ (execDecision cfg asof d st dec).orders,
        o ∈ st.orders ∨ (o.action = "SELL" ∧ o.qty ≤ alGet st.positions dec.1 0)) ∧
    (∀ (asof d : ℕ) (alloc : ℚ) (st : SimState) (t : String),
      ∀ o ∈ (weeklyBuyOne cfg asof d alloc st t).orders,
        o ∈ st.orders ∨ o.action = "BUY") := by
  refine ⟨?_, ?_, ?_⟩
  · intro n
    have hinit : PositionsNonneg (initState cfg) := by
      intro p hp
      simp [initState] at hp
    exact foldl_preserves
      (fun st d h => dayStep_pos cfg hfr _ st d h) _ _ hinit
  · intro asof d st dec o ho
    revert ho
    unfold execDecision
    cases hp : cfg.price asof dec.1 with
    | none => exact fun ho => Or.inl ho
    | some price =>
      dsimp only
      split
      · rename_i hz
        unfold apply_sell log_order
        rw [if_neg (by omega)]
        dsimp only
        intro ho
        rcases List.mem_append.mp ho with hm | hm
        · exact Or.inl hm
        · simp only [List.mem_singleton] at hm
          subst hm
          exact Or.inr ⟨rfl, le_rfl⟩
      · split
        · rename_i hnz hred
          split
          · rename_i hsq
            unfold apply_sell log_order
            rw [if_neg (by omega)]
            dsimp only
            intro ho
            rcases List.mem_append.mp ho with hm | hm
            · exact Or.inl hm
            · simp only [List.mem_singleton] at hm
              subst hm
              refine Or.inr ⟨rfl, ?_⟩
              exact reduce_qty_le cfg hfr dec.2.2 _ hred.2
          · exact fun ho => Or.inl ho
        · exact fun ho => Or.inl ho
  · intro asof d alloc st t o ho
    revert ho
    unfold weeklyBuyOne
    cases hp : cfg.price asof t with
    | none => exact fun ho => Or.inl ho
    | some price =>
      dsimp only
      repeat' split
      all_goals
        first
          | exact fun ho => Or.inl ho
          | (unfold apply_buy log_order
             dsimp only
             repeat' split
             all_goals
               first
                 | exact fun ho => Or.inl ho
                 | (intro ho
                    rcases List.mem_append.mp ho with hm | hm
                    · exact Or.inl hm
                    · simp only [List.mem_singleton] at hm
                      subst hm
                      exact Or.inr rfl))

/-- C6 witness: in the fee-free single-ticker run, whose REDUCE fractions
are the default one half, the quantity recorded for A after two days is
non-negative. -/
theorem positions_nonneg_amended_witness :
    (0 : ℤ) ≤ alGet (runUpTo firstDayCfg 2).positions "A" 0 := by
  have hfr : ∀ rid : String, reduceFractionOf firstDayCfg rid ≤ 1 := by
    intro rid
    unfold reduceFractionOf
    dsimp [firstDayCfg]
    split <;> norm_num
  have h := (positions_nonneg_amended firstDayCfg hfr).1 2
  exact alGet_nonneg _ _ h

/-- Helper: a fold of any over pointwise equal predicates agrees. -/
theorem any_congr_pointwise {α : Type _} (l : List α) (f g : α → Bool)
    (h : ∀ a, f a = g a) : l.any f = l.any g := by
  induction l with
  | nil => rfl
  | cons a l ih => simp [List.any_cons, h, ih]

/-- Helper: membership in a cons table. -/
theorem alHas_cons (p : String × ℤ) (rest : List (String × ℤ)) (t : String) :
    alHas (p :: rest) t = ((p.1 == t) || alHas rest t) := by
  simp [alHas]

/-- Helper: lookup in a cons table. -/
theorem alGet_cons (p : String × ℤ) (rest : List (String × ℤ)) (t : String)
    (dflt : ℤ) :
    alGet (p :: rest) t dflt =
      if p.1 == t then p.2 else alGet rest t dflt := by
  unfold alGet
  cases hk : (p.1 == t) with
  | true => simp [List.find?, hk]
  | false => simp [List.find?, hk]

/-- Helper: after an assignment the key is present. -/
theorem alHas_alSet_self (m : List (String × ℤ)) (k : String) (v : ℤ) :
    alHas (alSet m k v) k = true := by
  unfold alSet
  split
  · rename_i hhas
    unfold alHas at *
    rw [List.any_map]
    obtain ⟨p, hp, hpk⟩ := List.any_eq_true.mp hhas
    refine List.any_eq_true.mpr ⟨p, hp, ?_⟩
    simp [Function.comp, hpk]
  · unfold alHas
    simp [List.any_append]

/-- Helper: after an assignment the key reads the stored value. -/
theorem alGet_alSet_self (m : List (String × ℤ)) (k : String) (v : ℤ) :
    alGet (alSet m k v) k 0 = v := by
  unfold alSet
  split
  · rename_i hhas
    unfold alHas at hhas
    induction m with
    | nil => simp at hhas
    | cons p rest ih =>
      by_cases hk : (p.1 == k) = true
      · simp only [List.map_cons]
        rw [if_pos hk]
        rw [alGet_cons]
        simp
      · simp only [List.any_cons, hk, Bool.false_or] at hhas
        simp only [List.map_cons]
        rw [if_neg hk]
        rw [alGet_cons, if_neg hk]
        exact ih hhas
  · rename_i hhas
    unfold alHas at hhas
    induction m with
    | nil => simp [alGet_cons]
    | cons p rest ih =>
      simp only [List.any_cons, Bool.or_eq_true, not_or] at hhas
      rw [List.cons_append, alGet_cons, if_neg (by simpa using hhas.1)]
      exact ih (by simpa using hhas.2)

/-- Helper: an assignment under a different key does not change presence. -/
theorem alHas_alSet_ne (m : List (String × ℤ)) (k : String) (v : ℤ)
    (t : String) (h : k ≠ t) : alHas (alSet m k v) t = alHas m t := by
  have hbeq : (k == t) = false := by simpa using h
  unfold alSet
  split
  · unfold alHas
    rw [List.any_map]
    refine any_congr_pointwise _ _ _ ?_
    intro a
    by_cases hak : (a.1 == k) = true
    · have ha : a.1 = k := by simpa using hak
      simp [Function.comp, hak, ha, hbeq]
    · simp [Function.comp, hak]
  · unfold alHas
    simp [List.any_append, hbeq]

/-- Helper: an assignment under a different key does not change lookups. -/
theorem alGet_alSet_ne (m : List (String × ℤ)) (k : String) (v : ℤ)
    (t : String) (h : k ≠ t) : alGet (alSet m k v) t 0 = alGet m t 0 := by
  have hbeq : (k == t) = false := by simpa using h
  unfold alSet
  split
  · rename_i hhas
    clear hhas
    induction m with
    | nil => rfl
    | cons p rest ih =>
      simp only [List.map_cons]
      by_cases hak : (p.1 == k) = true
      · have ha : p.1 = k := by simpa using hak
        rw [if_pos hak, alGet_cons, alGet_cons, if_neg (by simp [hbeq]),
          if_neg (by simp [ha, hbeq])]
        exact ih
      · rw [if_neg hak, alGet_cons, alGet_cons]
        by_cases hat : (p.1 == t) = true
        · rw [if_pos hat, if_pos hat]
        · rw [if_neg hat, if_neg hat]
          exact ih
  · rename_i hhas
    clear hhas
    induction m with
    | nil => simp [alGet_cons, hbeq]
    | cons p rest ih =>
      rw [List.cons_append, alGet_cons, alGet_cons]
      by_cases hat : (p.1 == t) = true
      · rw [if_pos hat, if_pos hat]
      · rw [if_neg hat, if_neg hat]
        exact ih

/-- Helper: one step of the quarantine decrement on a cons table. -/
theorem quarantineTick_cons (p : String × ℤ) (rest : List (String × ℤ)) :
    quarantineTick (p :: rest) =
      if 0 < p.2 - 1 then (p.1, p.2 - 1) :: quarantineTick rest
      else quarantineTick rest := by
  unfold quarantineTick
  rw [List.map_cons, List.filter_cons]
  by_cases hp : 0 < p.2 - 1
  · rw [if_pos (by simpa using hp), if_pos hp]
  · rw [if_neg (by simpa using hp), if_neg hp]

/-- Helper: a ticker quarantined with a counter of at least two survives the
daily decrement with its counter one lower. -/
theorem quarantineTick_track (t : String) :
    ∀ (q : List (String × ℤ)) (c : ℤ), alHas q t = true → alGet q t 0 = c →
      2 ≤ c →
      alHas (quarantineTick q) t = true ∧ alGet (quarantineTick q) t 0 = c - 1 := by
  intro q
  induction q with
  | nil =>
    intro c hq
    simp [alHas] at hq
  | cons p rest ih =>
    intro c hq hv h2
    rw [quarantineTick_cons]
    by_cases hk : (p.1 == t) = true
    · rw [alGet_cons, if_pos hk] at hv
      rw [if_pos (by omega)]
      constructor
      · rw [alHas_cons]
        simp [hk]
      · rw [alGet_cons]
        simp only [hk, if_pos]
        omega
    · rw [alHas_cons] at hq
      simp only [hk, Bool.false_or] at hq
      rw [alGet_cons, if_neg hk] at hv
      obtain ⟨ih1, ih2⟩ := ih c hq hv h2
      by_cases hp : 0 < p.2 - 1
      · rw [if_pos hp]
        constructor
        · rw [alHas_cons]
          simp [hk, ih1]
        · rw [alGet_cons, if_neg (by simpa using hk)]
          exact ih2
      · rw [if_neg hp]
        exact ⟨ih1, ih2⟩

/-- Helper: a sell never touches the quarantine table. -/
theorem apply_sell_quarantine (cfg : SimCfg) (st : SimState) (d : ℕ)
    (t : String) (qty : ℤ) (price : ℚ) (reason : String) :
    (apply_sell cfg st d t qty price reason).quarantine = st.quarantine := by
  unfold apply_sell log_order
  split <;> rfl

/-- Helper: a buy never touches the quarantine table. -/
theorem apply_buy_quarantine (cfg : SimCfg) (st : SimState) (d : ℕ)
    (t : String) (qty : ℤ) (price : ℚ) (reason : String) :
    (apply_buy cfg st d t qty price reason).quarantine = st.quarantine := by
  unfold apply_buy log_order
  split
  · rfl
  · dsimp only
    split <;> rfl

/-- Helper: the action counters never touch the quarantine table. -/
theorem countActions_quarantine (st : SimState)
    (decs : List (String × String × String)) :
    (countActions st decs).quarantine = st.quarantine := by
  unfold countActions
  refine foldl_preserves (P := fun s => s.quarantine = st.quarantine) ?_ decs st rfl
  intro st' a h'
  dsimp only
  repeat' split
  all_goals exact h'

/-- Helper: filtering a table cannot make an absent key present. -/
theorem alHas_filter_of_not (m : List (String × ℤ)) (f : String × ℤ → Bool)
    (t : String) (h : alHas m t = false) : alHas (m.filter f) t = false := by
  unfold alHas at *
  rw [List.any_eq_false] at *
  intro p hp
  exact h p (List.mem_of_mem_filter hp)

/-- Helper: membership in the weekly-buy candidate list characterized. -/
theorem mem_eligibleList (cfg : SimCfg) (st : SimState) (t : String) :
    t ∈ eligibleList cfg st ↔
      t ∈ cfg.supervised ∧ alHas st.positions t = false ∧
        alHas st.quarantine t = false := by
  unfold eligibleList
  rw [List.mem_filter]
  simp

/-- Helper: a quarantined ticker is never a weekly-buy candidate. -/
theorem not_eligible_of_quarantined (cfg : SimCfg) (st : SimState) (t : String)
    (h : alHas st.quarantine t = true) : t ∉ eligibleList cfg st := by
  intro hmem
  have := (mem_eligibleList cfg st t).mp hmem
  rw [this.2.2] at h
  exact Bool.false_ne_true h

/-- Helper: every decision of a day is keyed by a currently recorded
position. -/
theorem decisionsFor_keys (cfg : SimCfg) (st : SimState) (asof : ℕ)
    (pm : Metrics) :
    ∀ dec ∈ decisionsFor cfg st asof pm, alHas st.positions dec.1 = true := by
  intro dec hdec
  obtain ⟨p, hp, rfl⟩ := List.mem_map.mp hdec
  unfold alHas
  exact List.any_eq_true.mpr ⟨p, hp, by simp⟩

/-- Helper: executing a decision about a different ticker leaves the given
ticker's quarantine entry and its absence from positions unchanged. -/
theorem execDecision_other (cfg : SimCfg) (asof d : ℕ) (st : SimState)
    (dec : String × String × String) (t : String) (hne : dec.1 ≠ t) :
    alHas (execDecision cfg asof d st dec).quarantine t = alHas st.quarantine t ∧
    alGet (execDecision cfg asof d st dec).quarantine t 0 = alGet st.quarantine t 0 ∧
    alHas (execDecision cfg asof d st dec).positions t = alHas st.positions t := by
  unfold execDecision
  cases hp : cfg.price asof dec.1 with
  | none => exact ⟨rfl, rfl, rfl⟩
  | some price =>
    dsimp only
    split
    · refine ⟨?_, ?_, ?_⟩
      · dsimp only
        rw [alHas_alSet_ne _ _ _ _ hne, apply_sell_quarantine]
      · dsimp only
        rw [alGet_alSet_ne _ _ _ _ hne, apply_sell_quarantine]
      · dsimp only
        rw [alHas_alSet_ne _ _ _ _ hne, apply_sell_positions]
    · split
      · split
        · refine ⟨?_, ?_, ?_⟩
          · dsimp only
            rw [apply_sell_quarantine]
          · dsimp only
            rw [apply_sell_quarantine]
          · dsimp only
            rw [alHas_alSet_ne _ _ _ _ hne, apply_sell_positions]
        · exact ⟨rfl, rfl, rfl⟩
      · exact ⟨rfl, rfl, rfl⟩

/-- Helper: executing a list of decisions that never concerns the given
ticker leaves its quarantine entry and positions absence unchanged. -/
theorem execFold_other (cfg : SimCfg) (asof d : ℕ) (t : String) :
    ∀ (decs : List (String × String × String)) (st : SimState),
      (∀ dec ∈ decs, dec.1 ≠ t) →
      alHas (decs.foldl (execDecision cfg asof d) st).quarantine t =
        alHas st.quarantine t ∧
      alGet (decs.foldl (execDecision cfg asof d) st).quarantine t 0 =
        alGet st.quarantine t 0 ∧
      alHas (decs.foldl (execDecision cfg asof d) st).positions t =
        alHas st.positions t
  | [], st, _ => ⟨rfl, rfl, rfl⟩
  | dec :: decs, st, h => by
    rw [List.foldl_cons]
    obtain ⟨h1, h2, h3⟩ :=
      execDecision_other cfg asof d st dec t (h dec (List.mem_cons_self dec decs))
    obtain ⟨g1, g2, g3⟩ := execFold_other cfg asof d t decs
      (execDecision cfg asof d st dec)
      (fun dec' hdec' => h dec' (List.mem_cons_of_mem dec hdec'))
    exact ⟨g1.trans h1, g2.trans h2, g3.trans h3⟩

/-- Helper: a weekly-buy attempt for a different ticker leaves quarantine
whole and the given ticker's positions presence unchanged. -/
theorem weeklyBuyOne_other (cfg : SimCfg) (asof d : ℕ) (alloc : ℚ)
    (st : SimState) (sel t : String) (hne : sel ≠ t) :
    (weeklyBuyOne cfg asof d alloc st sel).quarantine = st.quarantine ∧
    alHas (weeklyBuyOne cfg asof d alloc st sel).positions t =
      alHas st.positions t := by
  unfold weeklyBuyOne
  cases hp : cfg.price asof sel with
  | none => exact ⟨rfl, rfl⟩
  | some price =>
    dsimp only
    repeat' split
    all_goals
      first
        | exact ⟨rfl, rfl⟩
        | (constructor
           · dsimp only
             rw [apply_buy_quarantine]
           · dsimp only
             rw [alHas_alSet_ne _ _ _ _ hne, apply_buy_positions])

/-- Helper: a weekly-buy pass over tickers other than the given one leaves
quarantine whole and the given ticker's positions presence unchanged. -/
theorem weeklyFold_other (cfg : SimCfg) (asof d : ℕ) (alloc : ℚ) (t : String) :
    ∀ (sel : List String) (st : SimState), (∀ s ∈ sel, s ≠ t) →
      (sel.foldl (weeklyBuyOne cfg asof d alloc) st).quarantine = st.quarantine ∧
      alHas (sel.foldl (weeklyBuyOne cfg asof d alloc) st).positions t =
        alHas st.positions t
  | [], st, _ => ⟨rfl, rfl⟩
  | s :: sel, st, h => by
    rw [List.foldl_cons]
    obtain ⟨h1, h2⟩ :=
      weeklyBuyOne_other cfg asof d alloc st s t (h s (List.mem_cons_self s sel))
    obtain ⟨g1, g2⟩ := weeklyFold_other cfg asof d alloc t sel
      (weeklyBuyOne cfg asof d alloc st s)
      (fun s' hs' => h s' (List.mem_cons_of_mem s hs'))
    exact ⟨g1.trans h1, g2.trans h2⟩

/-- Helper: for a quarantined, unheld ticker the weekly phase changes
neither its quarantine entry nor its absence from positions. -/
theorem weeklyPhase_quarantined (cfg : SimCfg) (asof d : ℕ) (st : SimState)
    (t : String) (hq : alHas st.quarantine t = true)
    (hp : alHas st.positions t = false) :
    (weeklyPhase cfg asof d st).quarantine = st.quarantine ∧
    alHas (weeklyPhase cfg asof d st).positions t = false := by
  unfold weeklyPhase
  dsimp only
  split
  · split
    · have hsel : ∀ s ∈ (eligibleList cfg st).take
          ((cfg.target_positions - (st.positions.length : ℤ)) ⊔ 0).toNat, s ≠ t := by
        intro s hs heq
        subst heq
        exact not_eligible_of_quarantined cfg st s hq (List.take_subset _ _ hs)
      obtain ⟨g1, g2⟩ := weeklyFold_other cfg asof d _ t _ st hsel
      exact ⟨g1, g2.trans hp⟩
    · exact ⟨rfl, hp⟩
  · exact ⟨rfl, hp⟩

/-- Helper: the day core decrements the counter of a quarantined, unheld
ticker by one (when at least two remains beforehand) and keeps the
ticker out of positions. -/
theorem dayCore_track (cfg : SimCfg) (asof d : ℕ) (st : SimState) (t : String)
    (c : ℤ) (hq : alHas st.quarantine t = true)
    (hv : alGet st.quarantine t 0 = c) (h2 : 2 ≤ c)
    (hp : alHas st.positions t = false) :
    alHas (dayCore cfg asof d st).quarantine t = true ∧
    alGet (dayCore cfg asof d st).quarantine t 0 = c - 1 ∧
    alHas (dayCore cfg asof d st).positions t = false := by
  obtain ⟨ht1, ht2⟩ := quarantineTick_track t st.quarantine c hq hv h2
  unfold dayCore
  dsimp only
  set st1 : SimState := { st with quarantine := quarantineTick st.quarantine }
    with hst1
  set st2 := settle_cash st1 d with hst2
  have h2q : st2.quarantine = quarantineTick st.quarantine := rfl
  have h2p : st2.positions = st.positions := rfl
  set pm := compute_portfolio_metrics st2.equity_history asof
  set decs := decisionsFor cfg st2 asof pm with hdecs
  have hkeys : ∀ dec ∈ decs, dec.1 ≠ t := by
    intro dec hdec heq
    have := decisionsFor_keys cfg st2 asof pm dec hdec
    rw [heq, h2p, hp] at this
    exact Bool.false_ne_true this
  set st3 := countActions st2 decs with hst3
  have h3q : st3.quarantine = quarantineTick st.quarantine :=
    (countActions_quarantine st2 decs).trans h2q
  have h3p : st3.positions = st.positions :=
    (countActions_positions st2 decs).trans h2p
  obtain ⟨g1, g2, g3⟩ := execFold_other cfg asof d t decs st3 hkeys
  refine ⟨?_, ?_, ?_⟩
  · dsimp only
    rw [g1, h3q, ht1]
  · dsimp only
    rw [g2, h3q, ht2]
  · dsimp only
    apply alHas_filter_of_not
    rw [g3, h3p, hp]

/-- Helper: one full simulated day with a preceding calendar date tracks a
quarantined, unheld ticker: counter down one, still unheld. -/
theorem dayStep_track (cfg : SimCfg) (f : ℕ) (st : SimState) (d : ℕ)
    (t : String) (c : ℤ) (hidx : cfg.trading_dates.indexOf d ≠ 0)
    (hq : alHas st.quarantine t = true) (hv : alGet st.quarantine t 0 = c)
    (h2 : 2 ≤ c) (hp : alHas st.positions t = false) :
    alHas (dayStep cfg f st d).quarantine t = true ∧
    alGet (dayStep cfg f st d).quarantine t 0 = c - 1 ∧
    alHas (dayStep cfg f st d).positions t = false := by
  obtain ⟨h1, h2', h3⟩ := dayCore_track cfg
    (cfg.trading_dates.getD (cfg.trading_dates.indexOf d - 1) 0) d st t c hq hv h2 hp
  unfold dayStep
  dsimp only
  rw [if_neg hidx]
  split
  · obtain ⟨hwq, hwp⟩ := weeklyPhase_quarantined cfg _ d _ t h1 h3
    refine ⟨?_, ?_, ?_⟩
    · show alHas (weeklyPhase cfg _ d _).quarantine t = true
      rw [hwq]
      exact h1
    · show alGet (weeklyPhase cfg _ d _).quarantine t 0 = c - 1
      rw [hwq]
      exact h2'
    · exact hwp
  · exact ⟨h1, h2', h3⟩

/-- Helper: over any run of days that all have a preceding calendar date, a
quarantined, unheld ticker stays quarantined and unheld for as long as
its counter lasts, the counter dropping by exactly one per day. -/
theorem quarantine_propagation (cfg : SimCfg) (t : String) (f : ℕ) :
    ∀ (k : ℕ) (ds : List ℕ) (st : SimState) (c : ℤ),
      (∀ d' ∈ ds, cfg.trading_dates.indexOf d' ≠ 0) →
      alHas st.quarantine t = true → alGet st.quarantine t 0 = c →
      alHas st.positions t = false → (k : ℤ) < c → k ≤ ds.length →
      alHas ((ds.take k).foldl (dayStep cfg f) st).quarantine t = true ∧
      alGet ((ds.take k).foldl (dayStep cfg f) st).quarantine t 0 = c - k ∧
      alHas ((ds.take k).foldl (dayStep cfg f) st).positions t = false := by
  intro k
  induction k with
  | zero =>
    intro ds st c _ hq hv hp _ _
    simp only [List.take_zero, List.foldl_nil]
    refine ⟨hq, ?_, hp⟩
    rw [hv]
    push_cast
    ring
  | succ k ih =>
    intro ds st c hidx hq hv hp hk hlen
    cases ds with
    | nil => simp at hlen
    | cons d' ds' =>
      rw [List.take_succ_cons, List.foldl_cons]
      have h2 : (2 : ℤ) ≤ c := by
        have hk0 : (0 : ℤ) ≤ (k : ℤ) := Int.natCast_nonneg k
        push_cast at hk
        omega
      obtain ⟨t1, t2, t3⟩ := dayStep_track cfg f st d' t c
        (hidx d' (List.mem_cons_self d' ds')) hq hv h2 hp
      have hk' : (k : ℤ) < c - 1 := by
        push_cast at hk
        omega
      have hlen' : k ≤ ds'.length := by
        simp only [List.length_cons] at hlen
        omega
      obtain ⟨g1, g2, g3⟩ := ih ds' (dayStep cfg f st d') (c - 1)
        (fun x hx => hidx x (List.mem_cons_of_mem d' hx)) t1 t2 t3 hk' hlen'
      refine ⟨g1, ?_, g3⟩
      rw [g2]
      push_cast
      ring

/-- C4: executing a ZERO decision for a held ticker sets its quarantine
counter to quarantineSessions, zeroes the position and removes the
ticker from that day's weekly-buy candidates; a quarantined ticker is
never a weekly-buy candidate; during a day that starts with its counter
at two or more the ticker is still quarantined after the day core and
hence excluded from that day's weekly buy; over any following days the
counter drops by exactly one per day while the ticker stays unheld; and
once the counter is gone, a supervised unheld ticker is a candidate
again. -/
theorem quarantine_exclusion (cfg : SimCfg) (t : String) :
    (∀ (asof d : ℕ) (st : SimState) (rid : String) (price : ℚ),
      cfg.price asof t = some price → 0 < alGet st.positions t 0 →
      alHas (execDecision cfg asof d st (t, ("ZERO", rid))).quarantine t = true ∧
      alGet (execDecision cfg asof d st (t, ("ZERO", rid))).quarantine t 0 =
        cfg.quarantine_sessions ∧
      alGet (execDecision cfg asof d st (t, ("ZERO", rid))).positions t 0 = 0 ∧
      t ∉ eligibleList cfg (execDecision cfg asof d st (t, ("ZERO", rid)))) ∧
    (∀ st' : SimState, alHas st'.quarantine t = true →
      t ∉ eligibleList cfg st') ∧
    (∀ (asof d : ℕ) (st' : SimState) (c : ℤ),
      alHas st'.quarantine t = true → alGet st'.quarantine t 0 = c → 2 ≤ c →
      alHas st'.positions t = false →
      alHas (dayCore cfg asof d st').quarantine t = true ∧
      t ∉ eligibleList cfg (dayCore cfg asof d st')) ∧
    (∀ (f : ℕ) (ds : List ℕ) (st' : SimState) (c : ℤ) (k : ℕ),
      (∀ d' ∈ ds, cfg.trading_dates.indexOf d' ≠ 0) →
      alHas st'.quarantine t = true → alGet st'.quarantine t 0 = c →
      alHas st'.positions t = false → (k : ℤ) < c → k ≤ ds.length →
      alHas ((ds.take k).foldl (dayStep cfg f) st').quarantine t = true ∧
      alGet ((ds.take k).foldl (dayStep cfg f) st').quarantine t 0 = c - k ∧
      alHas ((ds.take k).foldl (dayStep cfg f) st').positions t = false) ∧
    (∀ st' : SimState, alHas st'.quarantine t = false →
      alHas st'.positions t = false → t ∈ cfg.supervised →
      t ∈ eligibleList cfg st') := by
  refine ⟨?_, ?_, ?_, ?_, ?_⟩
  · intro asof d st rid price hprice hqty
    unfold execDecision
    dsimp only
    rw [hprice]
    dsimp only
    rw [if_pos (⟨rfl, hqty⟩ : "ZERO" = "ZERO" ∧ 0 < alGet st.positions t 0)]
    refine ⟨?_, ?_, ?_, ?_⟩
    · dsimp only
      exact alHas_alSet_self _ _ _
    · dsimp only
      exact alGet_alSet_self _ _ _
    · dsimp only
      exact alGet_alSet_self _ _ _
    · apply not_eligible_of_quarantined
      dsimp only
      exact alHas_alSet_self _ _ _
  · intro st' h
    exact not_eligible_of_quarantined cfg st' t h
  · intro asof d st' c hq hv h2 hp
    obtain ⟨g1, _, _⟩ := dayCore_track cfg asof d st' t c hq hv h2 hp
    exact ⟨g1, not_eligible_of_quarantined cfg _ t g1⟩
  · intro f ds st' c k hidx hq hv hp hk hlen
    exact quarantine_propagation cfg t f k ds st' c hidx hq hv hp hk hlen
  · intro st' h1 h2 h3
    exact (mem_eligibleList cfg st' t).mpr ⟨h3, h2, h1⟩

/-- C4 witness: a ticker with a live quarantine counter is not a
weekly-buy candidate. -/
theorem quarantine_exclusion_witness :
    "A" ∉ eligibleList overdrawCfg { emptyState with quarantine := [("A", 5)] } :=
  (quarantine_exclusion overdrawCfg "A").2.1
    { emptyState with quarantine := [("A", 5)] } (by decide)

/-- C7 witness: a condition whose metric value is missing evaluates
false. -/
theorem condition_block_semantics_witness :
    evalCondition (fun _ => MetricValue.null)
      { metric := "m", op := ">=", value := 0 } = false :=
  (condition_block_semantics (fun _ => MetricValue.null)
    { metric := "m", op := ">=", value := 0 }).1 (Or.inl rfl)

end PortfolioZero
